import Mathlib

/-!
Verification model of the liqflow-oplogs market-data bridge
(`src/bridge/bridge.py` and `src/bridge/telegram_bot.py`).

Numbers are modelled as rationals (`ℚ`).  Python exceptions that a
connector catches internally are modelled by `Option` (a caught failure
yields `none`, "no record this tick"); an exception that escapes a
function is modelled by `Except Unit`.  JSON payloads are modelled by
explicit response structures whose `Option` fields record the presence
or absence of the corresponding JSON keys.
-/

/-- A JSON scalar as seen by Python's `float(...)` coercion:
either a number or a string. -/
inductive PyVal where
  | pnum (q : ℚ)
  | pstr (s : List Char)
deriving DecidableEq

/-- Characters matched by the regex character class `[0-9.]`. -/
def isNumDotChar (c : Char) : Bool := c = '.' || ('0' ≤ c && c ≤ '9')

/-- Value of a digit string read in base 10 (empty list reads as 0). -/
def digitsVal (ds : List Char) : ℕ :=
  ds.foldl (fun a c => 10 * a + (c.toNat - 48)) 0

/-- Python `float(s)` on a plain digits-and-dot string: it succeeds iff
every character is a digit or a dot, there is at least one digit, and at
most one dot (so `float(".")`, `float("..")`, `float("1.2.3")` raise
`ValueError`, modelled as `none`).  Richer float syntax (signs,
exponents, whitespace, `inf`/`nan`) is not modelled: the wire formats
and regex captures handled by this program never produce it. -/
def floatOfNumDot (s : List Char) : Option ℚ :=
  if s.all isNumDotChar ∧ s.count '.' ≤ 1 ∧ s.any (fun c => c.isDigit) then
    let ip := s.takeWhile (fun c => c ≠ '.')
    let fp := (s.dropWhile (fun c => c ≠ '.')).drop 1
    some ((digitsVal ip : ℚ) + (digitsVal fp : ℚ) / (10 : ℚ) ^ fp.length)
  else none

/-- Python `float(v)` on a JSON scalar. -/
def pyFloat : PyVal → Option ℚ
  | .pnum q => some q
  | .pstr s => floatOfNumDot s

/-- A depth response: the JSON object `{bids: [...], asks: [...]}` where
each field, when the key is present, is a list of level entries, each
entry a list of scalars (the wire sends `[price, volume]` pairs as
numbers or strings). -/
structure DepthResp where
  bids : Option (List (List PyVal))
  asks : Option (List (List PyVal))
deriving DecidableEq

/-- The `result` object of the OTC desk envelope: `{bid, ask}` with each
key possibly absent. -/
structure OtcResult where
  bid : Option PyVal
  ask : Option PyVal
deriving DecidableEq

/-- The OTC desk envelope `{responseCode, result}`. -/
structure OtcResp where
  responseCode : Option PyVal
  result : Option OtcResult
deriving DecidableEq

/-- The FX response `{rates: {...}}`: the outer `Option` is the presence
of the `rates` key, the inner `Option` the presence of the `THB` key
inside it (the rate itself is a JSON number, used without coercion). -/
structure FxResp where
  rates : Option (Option ℚ)
deriving DecidableEq

/-- The opaque `raw_data` payload carried by a record: the originating
response, or the full source text for the text-extraction path. -/
inductive Raw where
  | depth (d : DepthResp)
  | otc (d : OtcResp)
  | fx (d : FxResp)
  | text (t : List Char)
deriving DecidableEq

/-- An order book attached to a record: `(price, volume)` levels. -/
structure OrderBook where
  bids : List (ℚ × ℚ)
  asks : List (ℚ × ℚ)
deriving DecidableEq

/-- The canonical record shape inserted into the `market_data` table. -/
structure Record where
  source : String
  symbol : String
  price : Option ℚ
  bid : Option ℚ
  ask : Option ℚ
  order_book : Option OrderBook
  raw_data : Raw
deriving DecidableEq

/-- One level entry `[float(p), float(v)] for p, v in entry`: tuple
unpacking demands exactly two elements, and either coercion may raise
(any failure aborts the whole fetch, hence `Option`). -/
def parseLevel : List PyVal → Option (ℚ × ℚ)
  | [p, v] => do
    let pq ← pyFloat p
    let vq ← pyFloat v
    pure (pq, vq)
  | _ => none

/-- Run `parseLevel` over a list of entries, failing as soon as one
entry fails (the comprehension raises on the first bad entry and the
exception aborts the whole fetch). -/
def mapLevels : List (List PyVal) → Option (List (ℚ × ℚ))
  | [] => some []
  | e :: es =>
    match parseLevel e, mapLevels es with
    | some l, some ls => some (l :: ls)
    | _, _ => none

/-- `[[float(p), float(v)] for p, v in levels[:5]]`: the slice happens
before any element is unpacked, so malformed entries beyond the fifth
are never touched. -/
def parseLevels (levels : List (List PyVal)) : Option (List (ℚ × ℚ)) :=
  mapLevels (levels.take 5)

/-- Python truthiness of an optional number, as used by the guard
`if (best_bid and best_ask)`: `None` and `0.0` are falsy. -/
def pyTruthy : Option ℚ → Bool
  | none => false
  | some q => q ≠ 0

/-- The shared body of the two depth-style connectors, lines 56-79 and
88-111 of `bridge.py` (they differ only in endpoint, source and symbol):
require both `bids` and `asks` keys, truncate and coerce five levels a
side, take the first level of each side as best, and set `price` to the
midpoint when `best_bid and best_ask` is truthy (so a zero best quote,
like an absent one, leaves `price` as `None`). -/
def fetchDepth (src sym : String) (data : DepthResp) : Option Record :=
  match data.bids, data.asks with
  | some rawBids, some rawAsks =>
    match parseLevels rawBids, parseLevels rawAsks with
    | some bids, some asks =>
      let best_bid := bids.head?.map Prod.fst
      let best_ask := asks.head?.map Prod.fst
      let price : Option ℚ :=
        if pyTruthy best_bid && pyTruthy best_ask then
          some ((best_bid.getD 0 + best_ask.getD 0) / 2)
        else none
      some { source := src, symbol := sym, price := price,
             bid := best_bid, ask := best_ask,
             order_book := some ⟨bids, asks⟩, raw_data := .depth data }
    | _, _ => none
  | _, _ => none

/-- `fetch_bitkub` (bridge.py lines 52-82).  The extra `data and` in its
guard only rejects falsy payloads, which lack the `bids` key anyway, so
it is observationally the shared depth body. -/
def fetch_bitkub (data : DepthResp) : Option Record :=
  fetchDepth "bitkub" "THB_USDT" data

/-- `fetch_binance_th` (bridge.py lines 84-114). -/
def fetch_binance_th (data : DepthResp) : Option Record :=
  fetchDepth "binance_th" "USDTTHB" data

/-- `fetch_maxbit` (bridge.py lines 116-142): accept only
`responseCode == '000'` (string comparison, so a numeric code never
matches) with a `result` object present; a missing `bid`/`ask` key or a
failed coercion raises, is caught, and yields `none`.  `price` is the
midpoint unconditionally. -/
def fetch_maxbit (data : OtcResp) : Option Record :=
  if data.responseCode = some (PyVal.pstr "000".toList) then
    match data.result with
    | some res =>
      match res.bid.bind pyFloat, res.ask.bind pyFloat with
      | some bid, some ask =>
        some { source := "maxbit", symbol := "USDT",
               price := some ((bid + ask) / 2),
               bid := some bid, ask := some ask,
               order_book := none, raw_data := .otc data }
      | _, _ => none
    | none => none
  else none

/-- `fetch_fx` (bridge.py lines 144-161): require `rates` and
`rates['THB']`; the rate goes into `price` as-is, with `bid`, `ask` and
`order_book` all absent. -/
def fetch_fx (data : FxResp) : Option Record :=
  match data.rates with
  | some (some rate) =>
    some { source := "fx", symbol := "USD_THB", price := some rate,
           bid := none, ask := none, order_book := none,
           raw_data := .fx data }
  | _ => none

/-- One tick of the polling loop (bridge.py lines 169-185): each
connector's argument is `none` when its transport failed outright (the
fetch returns `None` from its exception handler), and present results
are appended in the fixed order bitkub, binance_th, maxbit, fx. -/
def runTick (bk bn : Option DepthResp) (mb : Option OtcResp)
    (fx : Option FxResp) : List Record :=
  (bk.bind fetch_bitkub).toList ++ (bn.bind fetch_binance_th).toList
    ++ (mb.bind fetch_maxbit).toList ++ (fx.bind fetch_fx).toList

/-- `if updates:` (bridge.py line 187): the insert call happens exactly
when the tick's batch is non-empty. -/
def tickWriteAttempted (bk bn : Option DepthResp) (mb : Option OtcResp)
    (fx : Option FxResp) : Bool :=
  !(runTick bk bn mb fx).isEmpty

/-- `INTERVAL_SECONDS = 1` (bridge.py line 28). -/
def INTERVAL_SECONDS : ℚ := 1

/-- `sleep_time = max(0, INTERVAL_SECONDS - elapsed)`
(bridge.py lines 200-201). -/
def computeSleep (elapsed : ℚ) : ℚ := max 0 (INTERVAL_SECONDS - elapsed)

/-- The mojibake rendering of the Thai word in the source file's marker
literals (`telegram_bot.py` lines 40-45): the file stores the bytes of
that word double-encoded, so the characters Python actually matches are
these nine code points. -/
def kueWord : List Char :=
  [Char.ofNat 0xE0, Char.ofNat 0xB8, Char.ofNat 0x201E,
   Char.ofNat 0xE0, Char.ofNat 0xB8, Char.ofNat 0xB7,
   Char.ofNat 0xE0, Char.ofNat 0xB8, Char.ofNat 0xAD]

/-- The literal part of `r'USDT>THB \(Bid\) ... ([0-9.]+)'`. -/
def usdtBidMarker : List Char := "USDT>THB (Bid) ".toList ++ kueWord ++ [' ']

/-- The literal part of `r'THB>USDT \(Ask\) ... ([0-9.]+)'`. -/
def usdtAskMarker : List Char := "THB>USDT (Ask) ".toList ++ kueWord ++ [' ']

/-- The literal part of `r'USDC>THB \(Bid\) ... ([0-9.]+)'`. -/
def usdcBidMarker : List Char := "USDC>THB (Bid) ".toList ++ kueWord ++ [' ']

/-- The literal part of `r'THB>USDC \(Ask\) ... ([0-9.]+)'`. -/
def usdcAskMarker : List Char := "THB>USDC (Ask) ".toList ++ kueWord ++ [' ']

/-- Strip a literal from the head of the text, or fail. -/
def dropLit : List Char → List Char → Option (List Char)
  | [], t => some t
  | _ :: _, [] => none
  | m :: ms, c :: cs => if c = m then dropLit ms cs else none

/-- Try the whole pattern `marker([0-9.]+)` at the current position:
the literal must match here and at least one `[0-9.]` character must
follow; the greedy capture is the maximal such run. -/
def matchCapture (marker text : List Char) : Option (List Char) :=
  match dropLit marker text with
  | none => none
  | some rest =>
    let g := rest.takeWhile isNumDotChar
    if g = [] then none else some g

/-- `re.search`: scan start positions left to right and return the first
position's capture, so only the first match per marker is ever used. -/
def reSearch (marker : List Char) : List Char → Option (List Char)
  | [] => matchCapture marker []
  | c :: rest =>
    match matchCapture marker (c :: rest) with
    | some g => some g
    | none => reSearch marker rest

/-- The record built for one symbol by `parse_prices`
(telegram_bot.py lines 58-66). -/
def mkTextRecord (text : List Char) (sym : String) (bid ask : ℚ) : Record :=
  { source := "bitazza", symbol := sym, price := some ((bid + ask) / 2),
    bid := some bid, ask := some ask, order_book := none,
    raw_data := .text text }

/-- One iteration of the `for symbol, p in patterns.items()` loop
(telegram_bot.py lines 49-66): a record is appended only when both
regexes match, and `float` on a degenerate capture (dots only, or more
than one dot) raises a `ValueError` that `parse_prices` does not catch,
modelled as `Except.error`. -/
def extractSymbol (text : List Char) (sym : String) (bidM askM : List Char) :
    Except Unit (Option Record) :=
  match reSearch bidM text, reSearch askM text with
  | some bg, some ag =>
    match floatOfNumDot bg with
    | none => .error ()
    | some bid =>
      match floatOfNumDot ag with
      | none => .error ()
      | some ask => .ok (some (mkTextRecord text sym bid ask))
  | _, _ => .ok none

/-- `parse_prices` (telegram_bot.py lines 28-68): the `patterns` dict
iterates in insertion order, USDT then USDC; an escaping `ValueError`
discards everything. -/
def parse_prices (text : List Char) : Except Unit (List Record) := do
  let r1 ← extractSymbol text "USDT" usdtBidMarker usdtAskMarker
  let r2 ← extractSymbol text "USDC" usdcBidMarker usdcAskMarker
  pure (r1.toList ++ r2.toList)

deriving instance DecidableEq for Except

/-- The price discipline a depth-style record actually satisfies:
midpoint when both best quotes exist and are nonzero, absent otherwise
(an existing best quote of exactly zero is falsy in Python, so it
suppresses the midpoint just like a missing one). -/
def depthPriceOk (r : Record) : Prop :=
  match r.bid, r.ask with
  | some b, some a =>
      if b ≠ 0 ∧ a ≠ 0 then r.price = some ((b + a) / 2) else r.price = none
  | _, _ => r.price = none

/-- A marker's first match in the text, if any, captures a string that
`float` accepts (at least one digit, at most one dot). -/
def captureOk (marker text : List Char) : Bool :=
  match reSearch marker text with
  | none => true
  | some g => (floatOfNumDot g).isSome

/-- Inversion for the shared depth body: a produced record determines
the parsed sides and every field of the record. -/
theorem fetchDepth_inv (src sym : String) (d : DepthResp) (r : Record)
    (h : fetchDepth src sym d = some r) :
    ∃ rawBids rawAsks bids asks,
      d.bids = some rawBids ∧ d.asks = some rawAsks ∧
      parseLevels rawBids = some bids ∧ parseLevels rawAsks = some asks ∧
      r = { source := src, symbol := sym,
            price := if pyTruthy (bids.head?.map Prod.fst)
                        && pyTruthy (asks.head?.map Prod.fst) then
                       some (((bids.head?.map Prod.fst).getD 0
                         + (asks.head?.map Prod.fst).getD 0) / 2)
                     else none,
            bid := bids.head?.map Prod.fst,
            ask := asks.head?.map Prod.fst,
            order_book := some ⟨bids, asks⟩, raw_data := .depth d } := by
  rcases d with ⟨bo, ao⟩
  rcases bo with _ | rawBids
  · simp [fetchDepth] at h
  rcases ao with _ | rawAsks
  · simp [fetchDepth] at h
  rcases hb : parseLevels rawBids with _ | bids
  · simp [fetchDepth, hb] at h
  rcases ha : parseLevels rawAsks with _ | asks
  · simp [fetchDepth, hb, ha] at h
  refine ⟨rawBids, rawAsks, bids, asks, rfl, rfl, hb, ha, ?_⟩
  simp only [fetchDepth, hb, ha, Option.some.injEq] at h
  exact h.symm

/-- Inversion for one symbol's extraction when it returns normally:
a record is present exactly when both regexes matched, and any record
is the one `mkTextRecord` builds. -/
theorem extractSymbol_ok_inv (t : List Char) (sym : String)
    (bM aM : List Char) (o : Option Record)
    (h : extractSymbol t sym bM aM = .ok o) :
    (o.isSome ↔ (reSearch bM t).isSome ∧ (reSearch aM t).isSome) ∧
    ∀ r, o = some r → ∃ b a, r = mkTextRecord t sym b a := by
  unfold extractSymbol at h
  rcases hb : reSearch bM t with _ | bg <;>
    rcases ha : reSearch aM t with _ | ag <;>
    rw [hb, ha] at h <;> dsimp only at h
  · simp only [Except.ok.injEq] at h
    subst h; simp
  · simp only [Except.ok.injEq] at h
    subst h; simp
  · simp only [Except.ok.injEq] at h
    subst h; simp
  rcases hfb : floatOfNumDot bg with _ | b <;> rw [hfb] at h <;>
    dsimp only at h
  · exact absurd h (by simp)
  rcases hfa : floatOfNumDot ag with _ | a <;> rw [hfa] at h <;>
    dsimp only at h
  · exact absurd h (by simp)
  simp only [Except.ok.injEq] at h
  subst h
  refine ⟨by simp, ?_⟩
  intro r hr
  exact ⟨b, a, (Option.some.injEq _ _ ▸ hr).symm⟩

/-- Inversion for `parse_prices` when it returns normally: both symbol
extractions returned normally and the result is their concatenation,
USDT first. -/
theorem parse_prices_ok_inv (t : List Char) (rs : List Record)
    (h : parse_prices t = .ok rs) :
    ∃ o1 o2,
      extractSymbol t "USDT" usdtBidMarker usdtAskMarker = .ok o1 ∧
      extractSymbol t "USDC" usdcBidMarker usdcAskMarker = .ok o2 ∧
      rs = o1.toList ++ o2.toList := by
  unfold parse_prices at h
  rcases h1 : extractSymbol t "USDT" usdtBidMarker usdtAskMarker with e1 | o1 <;>
    rw [h1] at h
  · simp [Bind.bind, Except.bind] at h
  rcases h2 : extractSymbol t "USDC" usdcBidMarker usdcAskMarker with e2 | o2 <;>
    rw [h2] at h
  · simp [Bind.bind, Except.bind] at h
  refine ⟨o1, o2, rfl, rfl, ?_⟩
  simp only [Bind.bind, Except.bind, pure, Except.pure, Except.ok.injEq] at h
  exact h.symm

/-- A successful level map preserves length. -/
theorem mapLevels_length (es : List (List PyVal)) (ls : List (ℚ × ℚ))
    (h : mapLevels es = some ls) : ls.length = es.length := by
  induction es generalizing ls with
  | nil =>
    simp only [mapLevels, Option.some.injEq] at h
    simp [h.symm]
  | cons e es ih =>
    unfold mapLevels at h
    rcases hp : parseLevel e with _ | l <;> rw [hp] at h
    · simp at h
    rcases hm : mapLevels es with _ | ls' <;> rw [hm] at h
    · simp at h
    simp only [Option.some.injEq] at h
    subst h
    simp [ih ls' hm]

/-- Inversion for the OTC connector: a produced record determines the
accepted envelope and every field. -/
theorem fetch_maxbit_inv (o : OtcResp) (r : Record)
    (h : fetch_maxbit o = some r) :
    ∃ res bid ask,
      o.responseCode = some (PyVal.pstr "000".toList) ∧
      o.result = some res ∧
      res.bid.bind pyFloat = some bid ∧ res.ask.bind pyFloat = some ask ∧
      r = { source := "maxbit", symbol := "USDT",
            price := some ((bid + ask) / 2), bid := some bid,
            ask := some ask, order_book := none, raw_data := .otc o } := by
  unfold fetch_maxbit at h
  split at h
  case isFalse => simp at h
  case isTrue hc =>
    rcases hres : o.result with _ | res <;> rw [hres] at h <;>
      dsimp only at h
    · simp at h
    rcases hfb : res.bid.bind pyFloat with _ | bid <;> rw [hfb] at h
    · dsimp only at h
      exact Option.noConfusion h
    rcases hfa : res.ask.bind pyFloat with _ | ask <;> rw [hfa] at h <;>
      dsimp only at h
    · exact Option.noConfusion h
    simp only [Option.some.injEq] at h
    exact ⟨res, bid, ask, hc, rfl, hfb, hfa, h.symm⟩

/-- Inversion for the FX connector. -/
theorem fetch_fx_inv (f : FxResp) (r : Record) (h : fetch_fx f = some r) :
    ∃ rate, f.rates = some (some rate) ∧
      r = { source := "fx", symbol := "USD_THB", price := some rate,
            bid := none, ask := none, order_book := none,
            raw_data := .fx f } := by
  unfold fetch_fx at h
  rcases hr : f.rates with _ | ro <;> rw [hr] at h
  · simp at h
  rcases ro with _ | rate
  · simp at h
  simp only [Option.some.injEq] at h
  exact ⟨rate, rfl, h.symm⟩

/-- Any record the shared depth body produces carries the connector's
source tag. -/
theorem fetchDepth_source (src sym : String) (d : DepthResp) (r : Record)
    (h : fetchDepth src sym d = some r) : r.source = src := by
  obtain ⟨_, _, _, _, _, _, _, _, rfl⟩ := fetchDepth_inv _ _ _ _ h
  rfl

/-- C5: an OTC response whose `responseCode` differs from the literal
string "000" or whose `result` field is missing yields no record; the
connector is a total function in this model (every exception is caught
at its own boundary), so no exception reaches the caller either. -/
theorem c5_otc_rejection (o : OtcResp)
    (h : o.responseCode ≠ some (PyVal.pstr "000".toList) ∨ o.result = none) :
    fetch_maxbit o = none := by
  unfold fetch_maxbit
  rcases h with h | h
  · rw [if_neg h]
  · split
    · rw [h]
    · rfl

/-- C5 witness: a concrete envelope with code "001" is rejected. -/
theorem c5_otc_rejection_witness :
    fetch_maxbit ⟨some (PyVal.pstr "001".toList),
      some ⟨some (PyVal.pnum 31), some (PyVal.pnum 32)⟩⟩ = none :=
  c5_otc_rejection _ (Or.inl (by decide))

/-- C7: the computed sleep is 0.7 for a tick of 0.3 time units, 0 for a
tick of 1.4 (the target interval being 1), and never negative. -/
theorem c7_scheduler_sleep :
    computeSleep (3 / 10) = 7 / 10 ∧ computeSleep (14 / 10) = 0 ∧
    ∀ elapsed : ℚ, 0 ≤ computeSleep elapsed := by
  refine ⟨?_, ?_, fun e => le_max_left 0 _⟩
  · unfold computeSleep INTERVAL_SECONDS
    rw [max_eq_right (by norm_num : (0 : ℚ) ≤ 1 - 3 / 10)]
    norm_num
  · unfold computeSleep INTERVAL_SECONDS
    rw [max_eq_left (by norm_num : (1 : ℚ) - 14 / 10 ≤ 0)]

/-- C4: a depth-style fetch whose response has more than 5 levels per
side and which produces a record gives that record an order book of
exactly 5 levels per side, the coerced front 5 of each input side. -/
theorem c4_depth_truncation (d : DepthResp)
    (rawBids rawAsks : List (List PyVal)) (r : Record)
    (hb : d.bids = some rawBids) (ha : d.asks = some rawAsks)
    (hlb : 5 < rawBids.length) (hla : 5 < rawAsks.length)
    (hr : fetch_bitkub d = some r ∨ fetch_binance_th d = some r) :
    ∃ ob, r.order_book = some ob ∧
      ob.bids.length = 5 ∧ ob.asks.length = 5 ∧
      mapLevels (rawBids.take 5) = some ob.bids ∧
      mapLevels (rawAsks.take 5) = some ob.asks := by
  have h : ∃ src sym, fetchDepth src sym d = some r := by
    rcases hr with hr | hr
    · exact ⟨"bitkub", "THB_USDT", hr⟩
    · exact ⟨"binance_th", "USDTTHB", hr⟩
  obtain ⟨src, sym, h⟩ := h
  obtain ⟨rb, ra, bids, asks, hb', ha', hpb, hpa, rfl⟩ :=
    fetchDepth_inv _ _ _ _ h
  rw [hb] at hb'
  rw [ha] at ha'
  obtain rfl : rawBids = rb := Option.some.inj hb'
  obtain rfl : rawAsks = ra := Option.some.inj ha'
  unfold parseLevels at hpb hpa
  refine ⟨⟨bids, asks⟩, rfl, ?_, ?_, hpb, hpa⟩
  · have := mapLevels_length _ _ hpb
    rw [List.length_take] at this
    show bids.length = 5
    omega
  · have := mapLevels_length _ _ hpa
    rw [List.length_take] at this
    show asks.length = 5
    omega

/-- C4 witness: a 6-level bitkub book is truncated to 5 a side. -/
theorem c4_depth_truncation_witness :
    ∃ ob,
      (Record.mk "bitkub" "THB_USDT" (some 1) (some 1) (some 1)
        (some ⟨[(1, 1), (2, 1), (3, 1), (4, 1), (5, 1)],
               [(1, 1), (2, 1), (3, 1), (4, 1), (5, 1)]⟩)
        (Raw.depth ⟨some [[.pnum 1, .pnum 1], [.pnum 2, .pnum 1],
            [.pnum 3, .pnum 1], [.pnum 4, .pnum 1], [.pnum 5, .pnum 1],
            [.pnum 6, .pnum 1]],
          some [[.pnum 1, .pnum 1], [.pnum 2, .pnum 1], [.pnum 3, .pnum 1],
            [.pnum 4, .pnum 1], [.pnum 5, .pnum 1],
            [.pnum 6, .pnum 1]]⟩)).order_book = some ob ∧
      ob.bids.length = 5 ∧ ob.asks.length = 5 ∧
      mapLevels ([[PyVal.pnum 1, PyVal.pnum 1], [.pnum 2, .pnum 1],
        [.pnum 3, .pnum 1], [.pnum 4, .pnum 1], [.pnum 5, .pnum 1],
        [.pnum 6, .pnum 1]].take 5) = some ob.bids ∧
      mapLevels ([[PyVal.pnum 1, PyVal.pnum 1], [.pnum 2, .pnum 1],
        [.pnum 3, .pnum 1], [.pnum 4, .pnum 1], [.pnum 5, .pnum 1],
        [.pnum 6, .pnum 1]].take 5) = some ob.asks :=
  c4_depth_truncation
    ⟨some [[.pnum 1, .pnum 1], [.pnum 2, .pnum 1], [.pnum 3, .pnum 1],
        [.pnum 4, .pnum 1], [.pnum 5, .pnum 1], [.pnum 6, .pnum 1]],
      some [[.pnum 1, .pnum 1], [.pnum 2, .pnum 1], [.pnum 3, .pnum 1],
        [.pnum 4, .pnum 1], [.pnum 5, .pnum 1], [.pnum 6, .pnum 1]]⟩
    [[.pnum 1, .pnum 1], [.pnum 2, .pnum 1], [.pnum 3, .pnum 1],
      [.pnum 4, .pnum 1], [.pnum 5, .pnum 1], [.pnum 6, .pnum 1]]
    [[.pnum 1, .pnum 1], [.pnum 2, .pnum 1], [.pnum 3, .pnum 1],
      [.pnum 4, .pnum 1], [.pnum 5, .pnum 1], [.pnum 6, .pnum 1]]
    _ rfl rfl (by decide) (by decide)
    (Or.inl (by norm_num [fetch_bitkub, fetchDepth, parseLevels, mapLevels,
      parseLevel, pyFloat, pyTruthy, Option.bind]))

/-- C8: a depth response with an empty `asks` list (and a well-formed,
non-empty `bids` list) still yields a record, with `price` absent and an
empty `order_book.asks`; the model is total, so nothing is raised. -/
theorem c8_empty_asks (d : DepthResp) (rawBids : List (List PyVal))
    (bids : List (ℚ × ℚ)) (hb : d.bids = some rawBids)
    (ha : d.asks = some []) (_hne : rawBids ≠ [])
    (hp : parseLevels rawBids = some bids) :
    ∃ r, fetch_bitkub d = some r ∧ r.price = none ∧
      ∃ ob, r.order_book = some ob ∧ ob.asks = [] := by
  rcases d with ⟨bo, ao⟩
  simp only at hb ha
  subst hb
  subst ha
  refine ⟨{ source := "bitkub", symbol := "THB_USDT", price := none,
            bid := bids.head?.map Prod.fst, ask := none,
            order_book := some ⟨bids, []⟩,
            raw_data := .depth ⟨some rawBids, some []⟩ },
          ?_, rfl, ⟨bids, []⟩, rfl, rfl⟩
  show fetchDepth _ _ _ = _
  simp only [fetchDepth, hp]
  have hpe : parseLevels ([] : List (List PyVal)) = some [] := rfl
  rw [hpe]
  simp [pyTruthy]

/-- C8 witness: a one-bid, zero-ask bitkub book still gives a record. -/
theorem c8_empty_asks_witness :
    ∃ r, fetch_bitkub ⟨some [[PyVal.pnum 31, PyVal.pnum 100]], some []⟩
        = some r ∧
      r.price = none ∧ ∃ ob, r.order_book = some ob ∧ ob.asks = [] :=
  c8_empty_asks _ [[PyVal.pnum 31, PyVal.pnum 100]] [(31, 100)]
    rfl rfl (by decide) rfl

/-- A record found inside an optional record's list view came from the
`some` case. -/
theorem mem_opt_toList {o : Option Record} {r : Record}
    (h : r ∈ o.toList) : o = some r := by
  cases o <;> simp_all

/-- An optional record's list view has at most one element. -/
theorem opt_toList_length (o : Option Record) : o.toList.length ≤ 1 := by
  cases o <;> simp

/-- Every record a tick's bitkub slot contributes is tagged "bitkub". -/
theorem runTick_bk_source (bk : Option DepthResp) (r : Record)
    (h : r ∈ (bk.bind fetch_bitkub).toList) : r.source = "bitkub" := by
  have h' := mem_opt_toList h
  rcases bk with _ | d
  · simp at h'
  · exact fetchDepth_source _ _ _ _ (by simpa using h')

/-- Every record a tick's binance_th slot contributes is tagged
"binance_th". -/
theorem runTick_bn_source (bn : Option DepthResp) (r : Record)
    (h : r ∈ (bn.bind fetch_binance_th).toList) : r.source = "binance_th" := by
  have h' := mem_opt_toList h
  rcases bn with _ | d
  · simp at h'
  · exact fetchDepth_source _ _ _ _ (by simpa using h')

/-- Every record a tick's maxbit slot contributes is tagged "maxbit". -/
theorem runTick_mb_source (mb : Option OtcResp) (r : Record)
    (h : r ∈ (mb.bind fetch_maxbit).toList) : r.source = "maxbit" := by
  have h' := mem_opt_toList h
  rcases mb with _ | o
  · simp at h'
  · obtain ⟨_, _, _, _, _, _, _, rfl⟩ := fetch_maxbit_inv _ _ (by simpa using h')
    rfl

/-- Every record a tick's fx slot contributes is tagged "fx". -/
theorem runTick_fx_source (fx : Option FxResp) (r : Record)
    (h : r ∈ (fx.bind fetch_fx).toList) : r.source = "fx" := by
  have h' := mem_opt_toList h
  rcases fx with _ | f
  · simp at h'
  · obtain ⟨_, _, rfl⟩ := fetch_fx_inv _ _ (by simpa using h')
    rfl

/-- C9: a tick's batch holds at most 4 records, no two of them from the
same source, every one of them from one of the four venues, and the
insert call is attempted exactly when the batch is non-empty. -/
theorem c9_tick_batch (bk bn : Option DepthResp) (mb : Option OtcResp)
    (fx : Option FxResp) :
    (runTick bk bn mb fx).length ≤ 4 ∧
    (runTick bk bn mb fx).Pairwise (fun r1 r2 => r1.source ≠ r2.source) ∧
    (runTick bk bn mb fx).all
      (fun r => ["bitkub", "binance_th", "maxbit", "fx"].contains r.source)
      = true ∧
    (tickWriteAttempted bk bn mb fx = true ↔ runTick bk bn mb fx ≠ []) := by
  refine ⟨?_, ?_, ?_, ?_⟩
  · have l1 := opt_toList_length (bk.bind fetch_bitkub)
    have l2 := opt_toList_length (bn.bind fetch_binance_th)
    have l3 := opt_toList_length (mb.bind fetch_maxbit)
    have l4 := opt_toList_length (fx.bind fetch_fx)
    simp only [runTick, List.length_append]
    omega
  · unfold runTick
    rw [List.pairwise_append, List.pairwise_append, List.pairwise_append]
    have hsingle : ∀ o : Option Record,
        o.toList.Pairwise (fun r1 r2 : Record => r1.source ≠ r2.source) := by
      intro o
      cases o <;> simp
    refine ⟨⟨⟨hsingle _, hsingle _, ?_⟩, hsingle _, ?_⟩, hsingle _, ?_⟩
    · intro a ha b hb
      rw [runTick_bk_source bk a ha, runTick_bn_source bn b hb]
      decide
    · intro a ha b hb
      rw [runTick_mb_source mb b hb]
      rcases List.mem_append.mp ha with ha | ha
      · rw [runTick_bk_source bk a ha]
        decide
      · rw [runTick_bn_source bn a ha]
        decide
    · intro a ha b hb
      rw [runTick_fx_source fx b hb]
      rcases List.mem_append.mp ha with ha | ha
      rotate_left
      · rw [runTick_mb_source mb a ha]
        decide
      rcases List.mem_append.mp ha with ha | ha
      · rw [runTick_bk_source bk a ha]
        decide
      · rw [runTick_bn_source bn a ha]
        decide
  · rw [List.all_eq_true]
    intro r hr
    unfold runTick at hr
    rcases List.mem_append.mp hr with hr | hr
    rotate_left
    · rw [runTick_fx_source fx r hr]
      decide
    rcases List.mem_append.mp hr with hr | hr
    rotate_left
    · rw [runTick_mb_source mb r hr]
      decide
    rcases List.mem_append.mp hr with hr | hr
    · rw [runTick_bk_source bk r hr]
      decide
    · rw [runTick_bn_source bn r hr]
      decide
  · cases hrt : runTick bk bn mb fx <;>
      simp [tickWriteAttempted, hrt]

/-- When each marker's first capture (if any) is float-acceptable, one
symbol's extraction cannot raise. -/
theorem extractSymbol_no_raise (t : List Char) (sym : String)
    (bM aM : List Char) (hb : captureOk bM t = true)
    (ha : captureOk aM t = true) :
    ∃ o, extractSymbol t sym bM aM = .ok o := by
  unfold captureOk at hb ha
  unfold extractSymbol
  rcases hrb : reSearch bM t with _ | bg <;>
    rcases hra : reSearch aM t with _ | ag
  · exact ⟨none, rfl⟩
  · exact ⟨none, rfl⟩
  · exact ⟨none, rfl⟩
  · rw [hrb] at hb
    rw [hra] at ha
    dsimp only at hb ha ⊢
    obtain ⟨b, hbv⟩ := Option.isSome_iff_exists.mp hb
    obtain ⟨a, hav⟩ := Option.isSome_iff_exists.mp ha
    rw [hbv, hav]
    exact ⟨_, rfl⟩

/-- C2 (amended): `parse_prices` returns 0..2 records and raises
nothing, for every text in which each marker's first match captures a
well-formed number.  (As stated over arbitrary text the claim fails: a
degenerate capture such as "." makes `float` raise a `ValueError` that
escapes `parse_prices`; see the counterexample.) -/
theorem c2_no_raise_amended (t : List Char)
    (h1 : captureOk usdtBidMarker t = true)
    (h2 : captureOk usdtAskMarker t = true)
    (h3 : captureOk usdcBidMarker t = true)
    (h4 : captureOk usdcAskMarker t = true) :
    ∃ rs, parse_prices t = .ok rs ∧ rs.length ≤ 2 := by
  obtain ⟨o1, e1⟩ := extractSymbol_no_raise t "USDT" _ _ h1 h2
  obtain ⟨o2, e2⟩ := extractSymbol_no_raise t "USDC" _ _ h3 h4
  refine ⟨o1.toList ++ o2.toList, ?_, ?_⟩
  · unfold parse_prices
    rw [e1, e2]
    rfl
  · cases o1 <;> cases o2 <;> simp

/-- C2 witness: a text carrying only the USDT bid marker parses to an
empty batch without raising. -/
theorem c2_no_raise_amended_witness :
    ∃ rs, parse_prices (usdtBidMarker ++ ['2']) = .ok rs ∧ rs.length ≤ 2 :=
  c2_no_raise_amended _ (by decide) (by decide) (by decide) (by decide)

/-- C2 counterexample: on a text whose USDT bid capture is the single
character ".", `float` raises a `ValueError` that escapes
`parse_prices`, so the extractor does not satisfy "never raises" as
stated. -/
theorem c2_counterexample :
    parse_prices (usdtBidMarker ++ ('.' :: ' ' :: usdtAskMarker) ++ ['1'])
      = .error () := by
  decide

/-- Every record in a normal `parse_prices` result is a text record for
one of the two tracked symbols. -/
theorem parse_prices_mem_shape (t : List Char) (rs : List Record)
    (r : Record) (h : parse_prices t = .ok rs) (hm : r ∈ rs) :
    ∃ sym b a, r = mkTextRecord t sym b a := by
  obtain ⟨o1, o2, e1, e2, rfl⟩ := parse_prices_ok_inv t rs h
  rcases List.mem_append.mp hm with hm | hm
  · obtain ⟨b, a, hr⟩ :=
      (extractSymbol_ok_inv _ _ _ _ _ e1).2 r (mem_opt_toList hm)
    exact ⟨_, b, a, hr⟩
  · obtain ⟨b, a, hr⟩ :=
      (extractSymbol_ok_inv _ _ _ _ _ e2).2 r (mem_opt_toList hm)
    exact ⟨_, b, a, hr⟩

/-- C6 (amended): when `parse_prices` returns normally, a symbol has a
record in the batch iff both of that symbol's marker patterns matched
the text, and a USDT-only text yields exactly one record.  (As stated
over arbitrary text the iff fails: when both markers match but a capture
is float-degenerate, the call raises and yields no record at all; see
the counterexample.) -/
theorem c6_marker_pair_amended (t : List Char) (rs : List Record)
    (h : parse_prices t = .ok rs) :
    ((∃ r ∈ rs, r.symbol = "USDT") ↔
      (reSearch usdtBidMarker t).isSome = true ∧
      (reSearch usdtAskMarker t).isSome = true) ∧
    ((∃ r ∈ rs, r.symbol = "USDC") ↔
      (reSearch usdcBidMarker t).isSome = true ∧
      (reSearch usdcAskMarker t).isSome = true) ∧
    ((reSearch usdtBidMarker t).isSome = true ∧
        (reSearch usdtAskMarker t).isSome = true ∧
        ((reSearch usdcBidMarker t).isSome = false ∨
          (reSearch usdcAskMarker t).isSome = false) →
      rs.length = 1) := by
  obtain ⟨o1, o2, e1, e2, rfl⟩ := parse_prices_ok_inv t rs h
  have E1 := extractSymbol_ok_inv _ _ _ _ _ e1
  have E2 := extractSymbol_ok_inv _ _ _ _ _ e2
  refine ⟨⟨?_, ?_⟩, ⟨?_, ?_⟩, ?_⟩
  · rintro ⟨r, hr, hsym⟩
    rcases List.mem_append.mp hr with hm | hm
    · exact E1.1.mp (by rw [mem_opt_toList hm]; rfl)
    · obtain ⟨b, a, hr2⟩ := E2.2 r (mem_opt_toList hm)
      rw [hr2] at hsym
      exact absurd hsym (by simp [mkTextRecord])
  · rintro ⟨hbM, haM⟩
    obtain ⟨r, hro⟩ := Option.isSome_iff_exists.mp (E1.1.mpr ⟨hbM, haM⟩)
    refine ⟨r, List.mem_append.mpr (Or.inl (by rw [hro]; simp)), ?_⟩
    obtain ⟨b, a, hr2⟩ := E1.2 r hro
    rw [hr2]
    rfl
  · rintro ⟨r, hr, hsym⟩
    rcases List.mem_append.mp hr with hm | hm
    · obtain ⟨b, a, hr2⟩ := E1.2 r (mem_opt_toList hm)
      rw [hr2] at hsym
      exact absurd hsym (by simp [mkTextRecord])
    · exact E2.1.mp (by rw [mem_opt_toList hm]; rfl)
  · rintro ⟨hbM, haM⟩
    obtain ⟨r, hro⟩ := Option.isSome_iff_exists.mp (E2.1.mpr ⟨hbM, haM⟩)
    refine ⟨r, List.mem_append.mpr (Or.inr (by rw [hro]; simp)), ?_⟩
    obtain ⟨b, a, hr2⟩ := E2.2 r hro
    rw [hr2]
    rfl
  · rintro ⟨hbt, hat, hc⟩
    obtain ⟨r, hro⟩ := Option.isSome_iff_exists.mp (E1.1.mpr ⟨hbt, hat⟩)
    have ho2 : o2 = none := by
      rcases ho2o : o2 with _ | r2
      · rfl
      · have hboth := E2.1.mp (by rw [ho2o]; rfl)
        rcases hc with hc | hc
        · rw [hboth.1] at hc
          exact absurd hc (by simp)
        · rw [hboth.2] at hc
          exact absurd hc (by simp)
    rw [hro, ho2]
    rfl

/-- C6 witness: a USDT-only text yields exactly one record. -/
theorem c6_marker_pair_amended_witness :
    ((parse_prices (usdtBidMarker ++ ('1' :: ' ' :: usdtAskMarker)
        ++ ['1'])).toOption.getD []).length = 1 :=
  (c6_marker_pair_amended
      (usdtBidMarker ++ ('1' :: ' ' :: usdtAskMarker) ++ ['1'])
      ((parse_prices (usdtBidMarker ++ ('1' :: ' ' :: usdtAskMarker)
        ++ ['1'])).toOption.getD [])
      rfl).2.2
    ⟨by decide, by decide, Or.inl (by decide)⟩

/-- C6 counterexample: both USDC markers match this text, yet no USDC
record is yielded — the degenerate capture ".." makes the call raise
instead, so "a Record iff both markers are found" fails as stated. -/
theorem c6_counterexample :
    (reSearch usdcBidMarker (usdcBidMarker ++ ('.' :: '.' :: ' ' ::
      usdcAskMarker) ++ ['5'])).isSome = true ∧
    (reSearch usdcAskMarker (usdcBidMarker ++ ('.' :: '.' :: ' ' ::
      usdcAskMarker) ++ ['5'])).isSome = true ∧
    parse_prices (usdcBidMarker ++ ('.' :: '.' :: ' ' ::
      usdcAskMarker) ++ ['5']) = .error () := by
  decide

/-- C10: a normal `parse_prices` batch lists its symbols as a sublist of
[USDT, USDC] (so when both are present USDT comes first), and every
record in it has source "bitazza", no order book, and the full source
text as its raw payload. -/
theorem c10_text_record_fields (t : List Char) (rs : List Record)
    (h : parse_prices t = .ok rs) :
    List.Sublist (rs.map Record.symbol) ["USDT", "USDC"] ∧
    ∀ r ∈ rs, r.source = "bitazza" ∧ r.order_book = none ∧
      r.raw_data = Raw.text t := by
  obtain ⟨o1, o2, e1, e2, rfl⟩ := parse_prices_ok_inv t rs h
  have E1 := extractSymbol_ok_inv _ _ _ _ _ e1
  have E2 := extractSymbol_ok_inv _ _ _ _ _ e2
  constructor
  · rw [List.map_append]
    have hs1 : o1.toList.map Record.symbol = [] ∨
        o1.toList.map Record.symbol = ["USDT"] := by
      rcases ho : o1 with _ | r
      · left
        rfl
      · obtain ⟨b, a, hr⟩ := E1.2 r ho
        right
        rw [hr]
        rfl
    have hs2 : o2.toList.map Record.symbol = [] ∨
        o2.toList.map Record.symbol = ["USDC"] := by
      rcases ho : o2 with _ | r
      · left
        rfl
      · obtain ⟨b, a, hr⟩ := E2.2 r ho
        right
        rw [hr]
        rfl
    rcases hs1 with hs1 | hs1 <;> rcases hs2 with hs2 | hs2 <;>
      rw [hs1, hs2] <;> decide
  · intro r hm
    rcases List.mem_append.mp hm with hm | hm
    · obtain ⟨b, a, hr⟩ := E1.2 r (mem_opt_toList hm)
      rw [hr]
      exact ⟨rfl, rfl, rfl⟩
    · obtain ⟨b, a, hr⟩ := E2.2 r (mem_opt_toList hm)
      rw [hr]
      exact ⟨rfl, rfl, rfl⟩

/-- C10 witness: a text carrying all four markers yields the symbols
[USDT, USDC] in that order, with the shared fields as stated. -/
theorem c10_text_record_fields_witness :
    List.Sublist (((parse_prices (usdtBidMarker ++ ('1' :: ' ' ::
        usdtAskMarker) ++ ('3' :: ' ' :: usdcBidMarker) ++ ('5' :: ' ' ::
        usdcAskMarker) ++ ['7'])).toOption.getD []).map Record.symbol)
      ["USDT", "USDC"] ∧
    ∀ r ∈ (parse_prices (usdtBidMarker ++ ('1' :: ' ' ::
        usdtAskMarker) ++ ('3' :: ' ' :: usdcBidMarker) ++ ('5' :: ' ' ::
        usdcAskMarker) ++ ['7'])).toOption.getD [],
      r.source = "bitazza" ∧ r.order_book = none ∧
      r.raw_data = Raw.text (usdtBidMarker ++ ('1' :: ' ' ::
        usdtAskMarker) ++ ('3' :: ' ' :: usdcBidMarker) ++ ('5' :: ' ' ::
        usdcAskMarker) ++ ['7']) :=
  c10_text_record_fields
    (usdtBidMarker ++ ('1' :: ' ' :: usdtAskMarker) ++ ('3' :: ' ' ::
      usdcBidMarker) ++ ('5' :: ' ' :: usdcAskMarker) ++ ['7'])
    ((parse_prices (usdtBidMarker ++ ('1' :: ' ' :: usdtAskMarker)
      ++ ('3' :: ' ' :: usdcBidMarker) ++ ('5' :: ' ' :: usdcAskMarker)
      ++ ['7'])).toOption.getD [])
    rfl

/-- Every record the shared depth body produces satisfies the actual
price discipline. -/
theorem fetchDepth_priceOk (src sym : String) (d : DepthResp) (r : Record)
    (h : fetchDepth src sym d = some r) : depthPriceOk r := by
  obtain ⟨rb, ra, bids, asks, _, _, _, _, rfl⟩ := fetchDepth_inv _ _ _ _ h
  rcases bids with _ | ⟨⟨b, vb⟩, bs⟩ <;>
    rcases asks with _ | ⟨⟨a, va⟩, aa⟩ <;>
    simp [depthPriceOk, pyTruthy]

/-- C1 (amended): every OTC and text-extracted record carries both
quotes and `price = (bid + ask) / 2` exactly; a depth record's price is
the midpoint exactly when both best quotes exist and are nonzero, and
absent otherwise.  (As stated the claim fails for the depth connectors:
a best quote of exactly 0 is falsy in Python, so `price` is absent even
though both `bid` and `ask` are set; see the counterexample.) -/
theorem c1_midpoint_amended :
    (∀ d r, fetch_bitkub d = some r → depthPriceOk r) ∧
    (∀ d r, fetch_binance_th d = some r → depthPriceOk r) ∧
    (∀ o r, fetch_maxbit o = some r → ∃ b a, r.bid = some b ∧
      r.ask = some a ∧ r.price = some ((b + a) / 2)) ∧
    (∀ t rs, parse_prices t = .ok rs → ∀ r ∈ rs, ∃ b a,
      r.bid = some b ∧ r.ask = some a ∧ r.price = some ((b + a) / 2)) := by
  refine ⟨fun d r h => fetchDepth_priceOk _ _ _ _ h,
          fun d r h => fetchDepth_priceOk _ _ _ _ h, ?_, ?_⟩
  · intro o r h
    obtain ⟨res, bid, ask, _, _, _, _, rfl⟩ := fetch_maxbit_inv _ _ h
    exact ⟨bid, ask, rfl, rfl, rfl⟩
  · intro t rs h r hm
    obtain ⟨sym, b, a, rfl⟩ := parse_prices_mem_shape _ _ _ h hm
    exact ⟨b, a, rfl, rfl, rfl⟩

/-- C1 witness: the accepted OTC envelope (31, 32) gives a record whose
price is the exact midpoint of its bid and ask. -/
theorem c1_midpoint_amended_witness :
    ∃ b a,
      ((fetch_maxbit ⟨some (PyVal.pstr "000".toList),
          some ⟨some (PyVal.pnum 31), some (PyVal.pnum 32)⟩⟩).getD
        (Record.mk "" "" none none none none (Raw.text []))).bid
          = some b ∧
      ((fetch_maxbit ⟨some (PyVal.pstr "000".toList),
          some ⟨some (PyVal.pnum 31), some (PyVal.pnum 32)⟩⟩).getD
        (Record.mk "" "" none none none none (Raw.text []))).ask
          = some a ∧
      ((fetch_maxbit ⟨some (PyVal.pstr "000".toList),
          some ⟨some (PyVal.pnum 31), some (PyVal.pnum 32)⟩⟩).getD
        (Record.mk "" "" none none none none (Raw.text []))).price
          = some ((b + a) / 2) :=
  c1_midpoint_amended.2.2.1
    ⟨some (PyVal.pstr "000".toList),
      some ⟨some (PyVal.pnum 31), some (PyVal.pnum 32)⟩⟩
    ((fetch_maxbit ⟨some (PyVal.pstr "000".toList),
        some ⟨some (PyVal.pnum 31), some (PyVal.pnum 32)⟩⟩).getD
      (Record.mk "" "" none none none none (Raw.text [])))
    rfl

/-- C1 counterexample: a bitkub book whose best bid is 0 yields a record
with both `bid` and `ask` set but `price` absent, not the midpoint 1. -/
theorem c1_counterexample :
    (fetch_bitkub ⟨some [[PyVal.pnum 0, PyVal.pnum 1]],
        some [[PyVal.pnum 2, PyVal.pnum 1]]⟩).map
      (fun r => (r.bid, r.ask, r.price)) =
      some (some 0, some 2, none) ∧
    (none : Option ℚ) ≠ some ((0 + 2) / 2) :=
  ⟨by decide, by decide⟩

/-- C3 (amended): OTC and text records carry both quotes; FX records
carry neither; in a depth record each side's quote is present exactly
when that side of the (truncated, coerced) book is non-empty, so a
one-sided book yields a record with exactly one of `bid`/`ask` set.
(As stated the claim fails: a depth response with bids but an empty
`asks` list produces `bid` present and `ask` absent; see the
counterexample.) -/
theorem c3_bid_ask_pairing_amended :
    (∀ d r, (fetch_bitkub d = some r ∨ fetch_binance_th d = some r) →
      ∃ ob, r.order_book = some ob ∧
        (r.bid.isSome = true ↔ ob.bids ≠ []) ∧
        (r.ask.isSome = true ↔ ob.asks ≠ [])) ∧
    (∀ o r, fetch_maxbit o = some r →
      r.bid.isSome = true ∧ r.ask.isSome = true) ∧
    (∀ f r, fetch_fx f = some r → r.bid = none ∧ r.ask = none) ∧
    (∀ t rs, parse_prices t = .ok rs → ∀ r ∈ rs,
      r.bid.isSome = true ∧ r.ask.isSome = true) := by
  refine ⟨?_, ?_, ?_, ?_⟩
  · intro d r h
    have h' : ∃ src sym, fetchDepth src sym d = some r := by
      rcases h with h | h
      exacts [⟨_, _, h⟩, ⟨_, _, h⟩]
    obtain ⟨src, sym, h'⟩ := h'
    obtain ⟨rb, ra, bids, asks, _, _, _, _, rfl⟩ := fetchDepth_inv _ _ _ _ h'
    refine ⟨⟨bids, asks⟩, rfl, ?_, ?_⟩
    · rcases bids with _ | ⟨l, ls⟩ <;> simp
    · rcases asks with _ | ⟨l, ls⟩ <;> simp
  · intro o r h
    obtain ⟨res, bid, ask, _, _, _, _, rfl⟩ := fetch_maxbit_inv _ _ h
    exact ⟨rfl, rfl⟩
  · intro f r h
    obtain ⟨rate, _, rfl⟩ := fetch_fx_inv _ _ h
    exact ⟨rfl, rfl⟩
  · intro t rs h r hm
    obtain ⟨sym, b, a, rfl⟩ := parse_prices_mem_shape _ _ _ h hm
    exact ⟨rfl, rfl⟩

/-- C3 witness: a concrete FX record carries neither bid nor ask. -/
theorem c3_bid_ask_pairing_amended_witness :
    ((fetch_fx ⟨some (some 35)⟩).getD
      (Record.mk "" "" none none none none (Raw.text []))).bid = none ∧
    ((fetch_fx ⟨some (some 35)⟩).getD
      (Record.mk "" "" none none none none (Raw.text []))).ask = none :=
  c3_bid_ask_pairing_amended.2.2.1 ⟨some (some 35)⟩
    ((fetch_fx ⟨some (some 35)⟩).getD
      (Record.mk "" "" none none none none (Raw.text [])))
    rfl

/-- C3 counterexample: a bitkub response with one bid level and an empty
asks list yields a non-FX record whose bid is present but whose ask is
absent. -/
theorem c3_counterexample :
    (fetch_bitkub ⟨some [[PyVal.pnum 1, PyVal.pnum 1]], some []⟩).map
      (fun r => (r.source, r.bid.isSome, r.ask.isSome)) =
      some ("bitkub", true, false) := by
  decide
